import Mathlib

/-!
Verification of the "watch" subsystem of the Laevitas CLI
(`src/cmd/saved.go`, watch half of the file).

The Go source is shallowly embedded:

* JSON values produced by `encoding/json` when decoding into
  `[]map[string]interface{}` are modelled by the inductive `Json`;
  Go's `float64` values are modelled exactly by `GoFloat`
  (a decimal mantissa/exponent pair; IEEE rounding of decimal literals is
  idealised as exact decimal arithmetic — no claim below depends on
  rounding at the 17th significant digit).
* Go maps (`map[string]interface{}`) are modelled as association lists
  with unique keys (`GoMap`), insertion replacing an existing binding
  exactly as a Go map assignment does.  Go's *randomised map iteration
  order* is modelled by an explicit iteration-order oracle passed to the
  decoder (`watchParseJSONo`): any run of the Go program corresponds to
  some valid oracle.
* `strconv.ParseFloat` is modelled by `goParseFloat` for decimal and
  scientific notation (the forms produced and consumed by this program;
  "Inf"/"NaN"/hex-float/underscore forms are not modelled — no claim
  depends on them).
* The event loop of `runWatch` is modelled as a step function on an
  explicit state (`WatchState`, `watchStep`) driven by a serialized event
  script: one event per `select` round, which also captures that a signal
  arriving during the synchronous fetch is only acted upon at the next
  `select`.  Terminal-state mutations are recorded in an event trace
  (`TermEvent`, `runWatchTrace`), with Go `defer`s appended in LIFO order
  on the paths where the Go function returns.
-/

/-- Exact model of a Go `float64` coming from a decoded decimal literal:
the represented value is `mantissa * 10 ^ exponent`. -/
structure GoFloat where
  mantissa : Int
  exponent : Int
deriving DecidableEq, Repr

/-- Scale two `GoFloat`s to their common (minimal) power of ten so their
mantissas become directly comparable integers. -/
def GoFloat.scaled (a b : GoFloat) : Int × Int :=
  if a.exponent ≤ b.exponent then
    (a.mantissa, b.mantissa * (10 : Int) ^ (b.exponent - a.exponent).toNat)
  else
    (a.mantissa * (10 : Int) ^ (a.exponent - b.exponent).toNat, b.mantissa)

/-- Value order on `GoFloat` (the model of `<` on Go `float64`). -/
def GoFloat.flt (a b : GoFloat) : Bool :=
  decide ((GoFloat.scaled a b).1 < (GoFloat.scaled a b).2)

/-- Value equality on `GoFloat` (the model of `==` on Go `float64`). -/
def GoFloat.feq (a b : GoFloat) : Bool :=
  decide ((GoFloat.scaled a b).1 = (GoFloat.scaled a b).2)

/-- Whether the value is a whole number: the model of Go's
`val == float64(int64(val))` test in `watchFmtValue`. -/
def GoFloat.isInt (a : GoFloat) : Bool :=
  if 0 ≤ a.exponent then true
  else decide (a.mantissa % (10 : Int) ^ (-a.exponent).toNat = 0)

/-- The integer value of a whole-valued `GoFloat`. -/
def GoFloat.toIntVal (a : GoFloat) : Int :=
  if 0 ≤ a.exponent then a.mantissa * (10 : Int) ^ a.exponent.toNat
  else a.mantissa / (10 : Int) ^ (-a.exponent).toNat

/-- JSON values as decoded by `encoding/json` into `interface{}`:
numbers become `float64` (`GoFloat` here), objects become Go maps
(represented in document order; duplicate keys are collapsed by
`toGoMap` below, last occurrence winning, as `encoding/json` does). -/
inductive Json where
  | null : Json
  | bool (b : Bool) : Json
  | num (f : GoFloat) : Json
  | str (s : String) : Json
  | arr (elems : List Json) : Json
  | obj (fields : List (String × Json)) : Json

/-- Association-list model of a Go `map[string]interface{}`
(keys unique once built by `toGoMap`). -/
abbrev GoMap := List (String × Json)

/-- Does the map contain the key (Go `_, ok := m[k]` test). -/
def goMapHasKey (m : GoMap) (k : String) : Bool :=
  m.any (fun p => p.1 = k)

/-- Go map assignment `m[k] = v`: replaces an existing binding in place,
otherwise appends a new one. -/
def goMapInsert (m : GoMap) (k : String) (v : Json) : GoMap :=
  if goMapHasKey m k then m.map (fun p => if p.1 = k then (k, v) else p)
  else m ++ [(k, v)]

/-- Build the Go map of a decoded JSON object: later duplicate keys
overwrite earlier ones, as in `encoding/json`. -/
def toGoMap (fields : List (String × Json)) : GoMap :=
  fields.foldl (fun m p => goMapInsert m p.1 p.2) []

/-- Go map lookup `v, ok := m[k]`. -/
def goMapGet (m : GoMap) (k : String) : Option Json :=
  (m.find? (fun p => p.1 = k)).map (fun p => p.2)

/-- The key list of a Go map (in representation order; actual iteration
order is supplied by an oracle, see `OrdValid`). -/
def goMapKeys (m : GoMap) : List String :=
  m.map (fun p => p.1)

/-- Numeric value of a digit character. -/
def digitVal (c : Char) : Nat := c.toNat - 48

/-- Decimal value of a digit string. -/
def digitsToNat (ds : List Char) : Nat :=
  ds.foldl (fun a c => 10 * a + digitVal c) 0

/-- Model of `strconv.ParseFloat(s, 64)` on decimal / scientific inputs:
optional sign, digits with optional fraction (at least one digit
required), optional exponent part with mandatory digits, nothing
trailing.  (Character codes: 43 `+`, 45 `-`, 46 `.`, 101 `e`, 69 `E`.) -/
def goParseFloat (s : String) : Option GoFloat :=
  let p0 := s.data
  let sgn : Int :=
    match p0 with
    | c :: _ => if c.toNat = 45 then -1 else 1
    | [] => 1
  let p1 : List Char :=
    match p0 with
    | c :: rest => if c.toNat = 43 ∨ c.toNat = 45 then rest else p0
    | [] => p0
  let ip := p1.takeWhile Char.isDigit
  let p2 := p1.dropWhile Char.isDigit
  let hasDot : Bool :=
    match p2 with
    | c :: _ => c.toNat = 46
    | [] => false
  let p3 := if hasDot then p2.drop 1 else p2
  let fp := if hasDot then p3.takeWhile Char.isDigit else []
  let p4 := if hasDot then p3.dropWhile Char.isDigit else p2
  if ip.isEmpty && fp.isEmpty then none
  else
    let mant : Int := sgn * (digitsToNat (ip ++ fp) : Int)
    match p4 with
    | [] => some ⟨mant, -(fp.length : Int)⟩
    | e :: rest =>
      if e.toNat = 101 ∨ e.toNat = 69 then
        let esgn : Int :=
          match rest with
          | c :: _ => if c.toNat = 45 then -1 else 1
          | [] => 1
        let r1 : List Char :=
          match rest with
          | c :: rr => if c.toNat = 43 ∨ c.toNat = 45 then rr else rest
          | [] => rest
        let ed := r1.takeWhile Char.isDigit
        let r2 := r1.dropWhile Char.isDigit
        if ed.isEmpty || !r2.isEmpty then none
        else some ⟨mant, -(fp.length : Int) + esgn * (digitsToNat ed : Int)⟩
      else none

/-- Strip trailing decimal zeros of a non-integral value
(`%g` prints the shortest decimal form): divide the mantissa by 10 while
the exponent is negative and the mantissa is a nonzero multiple of 10. -/
def gfNormAux : Nat → Int → Int → Int × Int
  | 0, m, e => (m, e)
  | f + 1, m, e =>
    if e < 0 ∧ m % 10 = 0 ∧ m ≠ 0 then gfNormAux f (m / 10) (e + 1)
    else (m, e)

/-- Digit characters of a natural number. -/
def natDigits (n : Nat) : List Char := (Nat.toDigits 10 n)

/-- Model of Go `fmt.Sprintf("%g", v)` for the non-integral values this
program renders: sign, integer part, point, fraction digits (shortest
form; the exponent notation `%g` switches to for extreme magnitudes is
not modelled — no claim depends on it). -/
def goFmtG (a : GoFloat) : String :=
  let n := gfNormAux (-a.exponent).toNat a.mantissa a.exponent
  let m := n.1
  let fracLen := (-n.2).toNat
  let ds := natDigits m.natAbs
  let ds := if ds.length < fracLen + 1 then
      (List.replicate (fracLen + 1 - ds.length) (Char.ofNat 48)) ++ ds
    else ds
  let ipart := ds.take (ds.length - fracLen)
  let fpart := ds.drop (ds.length - fracLen)
  (if m < 0 then ("-") else ("")) ++ String.mk ipart ++ (".") ++ String.mk fpart

mutual

/-- Model of `watchFmtValue`: a whole-valued `float64` prints with
`"%.0f"` (no decimal point, no scientific notation), other numbers with
the compact `"%g"`, `nil` as the empty string, everything else with its
`"%v"` form (bools as `true`/`false`, strings verbatim; the `%v` layout
of nested arrays/maps is modelled structurally — Go additionally sorts
map keys in `%v`, which no claim depends on). -/
def watchFmtValue : Json → String
  | .num a => if a.isInt then toString a.toIntVal else goFmtG a
  | .null => ""
  | .bool b => if b then ("true") else ("false")
  | .str s => s
  | .arr es => ("[") ++ fmtJsonList es ++ ("]")
  | .obj fs => ("map[") ++ fmtJsonFields fs ++ ("]")

/-- Space-separated `%v` rendering of a decoded JSON array's elements. -/
def fmtJsonList : List Json → String
  | [] => ""
  | [j] => watchFmtValue j
  | j :: rest => watchFmtValue j ++ (" ") ++ fmtJsonList rest

/-- Space-separated `%v` rendering of a decoded JSON object's fields. -/
def fmtJsonFields : List (String × Json) → String
  | [] => ""
  | [(k, v)] => k ++ (":") ++ watchFmtValue v
  | (k, v) :: rest => k ++ (":") ++ watchFmtValue v ++ (" ") ++ fmtJsonFields rest

end

/-- Model of `json.Unmarshal` into one `map[string]interface{}`:
an object succeeds (duplicate keys collapsed), a JSON `null` leaves the
map `nil` (no keys) without error, anything else errors. -/
def asRecord : Json → Option GoMap
  | .null => some []
  | .obj fs => some (toGoMap fs)
  | _ => none

/-- Unmarshal every element of a JSON array as a record; any failing
element fails the whole array (as `json.Unmarshal` into
`[]map[string]interface{}` does). -/
def asRecordList : List Json → Option (List GoMap)
  | [] => some []
  | j :: rest =>
    match asRecord j, asRecordList rest with
    | some r, some rs => some (r :: rs)
    | _, _ => none

/-- Model of `json.Unmarshal(data, &records)` with
`records : []map[string]interface{}`: an array of records succeeds,
a top-level `null` yields a nil slice without error, anything else
errors. -/
def asRecords : Json → Option (List GoMap)
  | .null => some []
  | .arr es => asRecordList es
  | _ => none

/-- One pass of the header-collection loop of `watchParseJSON`:
append each key not seen before (the `headerSet` of the Go code is
exactly membership in the accumulator). -/
def addHeaders (acc : List String) (ks : List String) : List String :=
  ks.foldl (fun a k => if k ∈ a then a else a ++ [k]) acc

/-- Collect headers across all records, in order of first appearance,
iterating record `i`'s keys in the order `ord i rec` chosen by the
map-iteration oracle. -/
def collectHeadersAux (ord : Nat → GoMap → List String) :
    Nat → List GoMap → List String → List String
  | _, [], acc => acc
  | i, r :: rest, acc => collectHeadersAux ord (i + 1) rest (addHeaders acc (ord i r))

/-- Headers of a record list under a given map-iteration oracle. -/
def collectHeaders (ord : Nat → GoMap → List String) (recs : List GoMap) : List String :=
  collectHeadersAux ord 0 recs []

/-- One decoded cell: the formatted value under header `h`, or the empty
string when the record lacks the key (the row is pre-filled with empty
strings in the Go code). -/
def watchCell (rec : GoMap) (h : String) : String :=
  match goMapGet rec h with
  | some v => watchFmtValue v
  | none => ""

/-- The data rows of the decoded grid: one row per record, aligned to
the header list. -/
def gridRows (headers : List String) (recs : List GoMap) : List (List String) :=
  recs.map (fun rec => headers.map (fun h => watchCell rec h))

/-- The fallback envelope path of `watchParseJSON`: when the payload is
an object, unmarshal its `data` field as a record array; `wrapper.Data`
stays nil (decode fails) when the field is absent or the payload is not
an object. -/
def watchEnvelope : Json → Option (List GoMap)
  | .obj fs =>
    match goMapGet (toGoMap fs) ("data") with
    | some d => asRecords d
    | none => none
  | _ => none

/-- Record extraction of `watchParseJSON` (oracle-independent part):
`nil` bytes decode to nothing; otherwise try a bare record array first,
then the `{ "data": ... }` envelope, else fail. -/
def watchRecords (data : Option Json) : Option (List GoMap) :=
  match data with
  | none => none
  | some j =>
    match asRecords j with
    | some recs => some recs
    | none => watchEnvelope j

/-- Model of `watchParseJSON` under a map-iteration oracle `ord`:
parse raw API JSON into a 2D string grid (header row plus data rows);
failures and empty record lists yield the empty (nil) grid. -/
def watchParseJSONo (ord : Nat → GoMap → List String) (data : Option Json) :
    List (List String) :=
  match watchRecords data with
  | none => []
  | some [] => []
  | some recs => collectHeaders ord recs :: gridRows (collectHeaders ord recs) recs

/-- Validity of a map-iteration oracle: on any map with unique keys it
yields each key exactly once, in some order.  Every run of the Go
program corresponds to some valid oracle. -/
def OrdValid (ord : Nat → GoMap → List String) : Prop :=
  ∀ i rec, (goMapKeys rec).Nodup →
    ((ord i rec).Nodup ∧ ∀ k, k ∈ ord i rec ↔ k ∈ goMapKeys rec)

/-- The document-order iteration oracle (one possible Go run). -/
def ordDoc : Nat → GoMap → List String := fun _ rec => goMapKeys rec

/-- The reversed iteration oracle (another possible Go run). -/
def ordRev : Nat → GoMap → List String := fun _ rec => (goMapKeys rec).reverse

/-- Association-list model of the Go `map[string]string` used for
previous values (assignment replaces an existing binding). -/
def strMapInsert (m : List (String × String)) (k v : String) : List (String × String) :=
  if m.any (fun p => p.1 = k) then m.map (fun p => if p.1 = k then (k, v) else p)
  else m ++ [(k, v)]

/-- Lookup in the previous-value map (Go `prevVal, hasPrev := m[key]`). -/
def strMapGet (m : List (String × String)) (k : String) : Option String :=
  (m.find? (fun p => p.1 = k)).map (fun p => p.2)

/-- Model of `watchKey`: the `"rowIdx:colName"` correlation key. -/
def watchKey (row : Nat) (col : String) : String :=
  toString row ++ (":") ++ col

/-- Inner loop of `watchBuildValueMap` over the cells of row `r`
(cell index `c` counts up; cells beyond the header count are skipped). -/
def buildCells (headers : List String) (r : Nat) :
    List (String × String) → Nat → List String → List (String × String)
  | m, _, [] => m
  | m, c, cell :: rest =>
    buildCells headers r
      (if c < headers.length then strMapInsert m (watchKey r (headers.getD c (""))) cell else m)
      (c + 1) rest

/-- Outer loop of `watchBuildValueMap` over the data rows. -/
def buildRowsMap (headers : List String) :
    List (String × String) → Nat → List (List String) → List (String × String)
  | m, _, [] => m
  | m, r, row :: rest => buildRowsMap headers (buildCells headers r m 0 row) (r + 1) rest

/-- Model of `watchBuildValueMap`: a lookup from `"rowIdx:colName"` to
the raw previous cell string; grids with fewer than two rows (no data
rows) give the empty map. -/
def watchBuildValueMap (rows : List (List String)) : List (String × String) :=
  match rows with
  | [] => []
  | [_] => []
  | headers :: dataRows => buildRowsMap headers [] 0 dataRows

/-- Model of `watchCompare`: `+1` if `curr > prev`, `-1` if
`curr < prev`, `0` if equal or if either string fails to parse. -/
def watchCompare (curr prev : String) : Int :=
  match goParseFloat curr, goParseFloat prev with
  | some c, some p => if GoFloat.flt p c then 1 else if GoFloat.flt c p then -1 else 0
  | _, _ => 0

/-- The non-empty cells of column `c` (cells missing because a row is
short are skipped, exactly like the `c >= len(row)` guard). -/
def colCells (c : Nat) (rows : List (List String)) : List String :=
  rows.filterMap (fun row =>
    match row.get? c with
    | none => none
    | some cell => if cell = "" then none else some cell)

/-- Model of `watchDetectNumeric`: column `c` is numeric when it has at
least one counted (non-empty) cell and every counted cell parses as a
float (`total > 0 && numCount == total`). -/
def watchDetectNumeric (headers : List String) (dataRows : List (List String)) : List Bool :=
  (List.range headers.length).map (fun c =>
    decide (0 < (colCells c dataRows).length) &&
    decide (((colCells c dataRows).filter (fun s => (goParseFloat s).isSome)).length =
      (colCells c dataRows).length))

/-- Model of the per-cell change-highlight decision of
`watchRenderTable` (the `isNumeric[c] && prevData != nil && ...` block):
the returned `Int` is the `watchCompare` result when a highlight is
considered, `0` (no highlight) otherwise. -/
def watchCellChange (isNumeric : List Bool) (prevPresent : Bool) (headers : List String)
    (dataRows : List (List String)) (prevValues : List (String × String)) (r c : Nat) : Int :=
  if isNumeric.getD c false && prevPresent && decide (c < headers.length) &&
      decide (r < dataRows.length) && decide (c < (dataRows.getD r []).length) then
    match strMapGet prevValues (watchKey r (headers.getD c (""))) with
    | some prevVal => watchCompare ((dataRows.getD r []).getD c ("")) prevVal
    | none => 0
  else 0

/-- Total rendered width of the columns after the first: each adds its
2-character inter-column gap (the `if i > 0 { total += 2 }` of the Go
loops). -/
def watchTotalRest : List Nat → Nat
  | [] => 0
  | w :: rest => (2 + w) + watchTotalRest rest

/-- Total rendered width: sum of column widths plus 2-character gaps
between adjacent columns. -/
def watchTotal : List Nat → Nat
  | [] => 0
  | w :: rest => w + watchTotalRest rest

/-- The widest-column scan of `watchTruncCols`: starting from
`maxIdx, maxW := 0, 0`, keep the first index whose width strictly
exceeds the current maximum. -/
def goMaxAux : Nat → Nat × Nat → List Nat → Nat × Nat
  | _, acc, [] => acc
  | i, acc, w :: rest => goMaxAux (i + 1) (if acc.2 < w then (i, w) else acc) rest

/-- Index and value of the widest column (first occurrence), as computed
by the scan in `watchTruncCols`. -/
def goMax (ws : List Nat) : Nat × Nat := goMaxAux 0 (0, 0) ws

/-- The shrink loop of `watchTruncCols` run with an explicit iteration
budget: stop when the total fits or the widest column is at the floor
width 6 (`minWidth`), otherwise shrink the widest column by one and
re-scan; `none` means the budget ran out before the loop exited.
The budget `ws.sum + 1` is proven sufficient below. -/
def truncRunFuel : Nat → List Nat → Nat → Option (List Nat)
  | 0, _, _ => none
  | fuel + 1, ws, tw =>
    if watchTotal ws ≤ tw then some ws
    else if (goMax ws).2 ≤ 6 then some ws
    else truncRunFuel fuel (ws.set (goMax ws).1 ((goMax ws).2 - 1)) tw

/-- Model of `watchTruncCols`: the final column widths produced by the
shrink loop (the budget `ws.sum + 1` always suffices, see the
width-shrinking theorem). -/
def watchTruncCols (ws : List Nat) (tw : Nat) : List Nat :=
  (truncRunFuel (ws.sum + 1) ws tw).getD ws

/-- State of the `runWatch` loop: the retained previous payload
(`prevData`, `none` for Go's nil slice), the last-refresh timestamp
(`none` for Go's zero `time.Time`), and the immediate-refresh flag. -/
structure WatchState where
  prevData : Option Json
  lastRefresh : Option Nat
  refreshNow : Bool

/-- One event consumed by a `select` round of the loop: a process
interrupt, one input byte, or a 100 ms ticker tick.  A tick carries the
time `now` read at the top of the branch, the fetch outcome, and the
time `now2` read by the `lastRefresh = time.Now()` line after the fetch
returns.  Events are serialized: a signal or key arriving during the
synchronous fetch is delivered as a later event, exactly as the Go
`select` only observes it on the next round. -/
inductive WatchEvent where
  | sig : WatchEvent
  | key (b : Nat) : WatchEvent
  | tick (now : Nat) (fetch : Except String Json) (now2 : Nat) : WatchEvent

/-- Result of one loop round: exit the loop (quit) or continue with the
next state. -/
inductive StepOut where
  | quit : StepOut
  | cont (s : WatchState) : StepOut

/-- The continuation state of a step, if any. -/
def StepOut.state? : StepOut → Option WatchState
  | .quit => none
  | .cont s => some s

/-- Model of one `select` round of `runWatch`: an interrupt quits; byte
113 (`q`), 81 (`Q`) or 3 (Ctrl+C) quits, any other byte is ignored; a
tick refreshes when `refreshNow` is set or the interval has elapsed
since a nonzero `lastRefresh` — on a refresh, a fetch error keeps
`prevData` and a success replaces it, and `lastRefresh` is set to the
post-fetch time in both cases. -/
def watchStep (interval : Nat) (s : WatchState) : WatchEvent → StepOut
  | .sig => .quit
  | .key b => if b = 113 ∨ b = 81 ∨ b = 3 then .quit else .cont s
  | .tick now fetch now2 =>
    if s.refreshNow || (s.lastRefresh.isSome && decide (interval ≤ now - s.lastRefresh.getD 0)) then
      match fetch with
      | .error _ => .cont ⟨s.prevData, some now2, false⟩
      | .ok data => .cont ⟨some data, some now2, false⟩
    else .cont s

/-- Observable terminal-state actions of `runWatch`, in order. -/
inductive TermEvent where
  | makeRaw : TermEvent
  | restoreRaw : TermEvent
  | hideCursor : TermEvent
  | showCursor : TermEvent
  | clearScreen : TermEvent
  | printHeader : TermEvent
  | printTable : TermEvent
  | printError : TermEvent
  | printStop : TermEvent
  | printStatus : TermEvent
deriving DecidableEq, Repr

/-- The fatal setup errors `runWatch` can return. -/
inductive WatchErr where
  | usage : WatchErr
  | badInterval : WatchErr
  | resolveFailed : WatchErr
  | noClient : WatchErr
  | rawFailed : WatchErr
deriving DecidableEq, Repr

/-- How a modelled run of `runWatch` ends: a returned setup error, a
normal return after quitting, or `running` when the event script ended
with the loop still live (the session has not ended). -/
inductive WatchOutcome where
  | err (e : WatchErr) : WatchOutcome
  | done : WatchOutcome
  | running : WatchOutcome
deriving DecidableEq, Repr

/-- Terminal trace of `watchExit`: show the cursor, clear the screen,
print the stop confirmation. -/
def watchExitTrace : List TermEvent :=
  [TermEvent.showCursor, TermEvent.clearScreen, TermEvent.printStop]

/-- Screen output of one non-exiting loop round: a due tick repaints
the cleared screen, header, then the table or the inline fetch error,
and (having set `lastRefresh`) the status bar; a non-due tick repaints
only the status bar once `lastRefresh` is nonzero. -/
def stepTrace (interval : Nat) (s : WatchState) : WatchEvent → List TermEvent
  | .sig => []
  | .key _ => []
  | .tick now fetch _ =>
    if s.refreshNow || (s.lastRefresh.isSome && decide (interval ≤ now - s.lastRefresh.getD 0)) then
      [TermEvent.clearScreen, TermEvent.printHeader] ++
        (match fetch with
         | .error _ => [TermEvent.printError]
         | .ok _ => [TermEvent.printTable]) ++ [TermEvent.printStatus]
    else if s.lastRefresh.isSome then [TermEvent.printStatus] else []

/-- The `runWatch` loop over an event script: each event is one `select`
round; a quit path emits the `watchExit` trace and returns, otherwise
the round's screen output is emitted and the loop continues. -/
def watchLoop (interval : Nat) (s : WatchState) : List WatchEvent → WatchOutcome × List TermEvent
  | [] => (.running, [])
  | e :: rest =>
    match watchStep interval s e with
    | .quit => (.done, watchExitTrace)
    | .cont s2 =>
      ((watchLoop interval s2 rest).1,
        stepTrace interval s e ++ (watchLoop interval s2 rest).2)

/-- Setup inputs of one `runWatch` invocation: the argument list and the
outcomes of the external collaborators (`resolveWatchCommand`,
`cmdutil.MustClient`, `term.MakeRaw`). -/
structure WatchCfg where
  args : List String
  resolveOk : Bool
  clientOk : Bool
  rawOk : Bool

/-- Model of the supported-interval map `validIntervals` (duration in
seconds). -/
def validIntervals (s : String) : Option Nat :=
  if s = "5s" then some 5
  else if s = "10s" then some 10
  else if s = "30s" then some 30
  else if s = "1m" then some 60
  else if s = "5m" then some 300
  else none

/-- Trace model of `runWatch`: argument-count and interval validation,
then command resolution, client lookup and raw-mode acquisition — all
before any terminal mutation — then hide the cursor and run the loop.
When the loop returns (quit), the registered `defer`s run in LIFO
order: `signal.Stop`, `tick.Stop` (no terminal effect), then
`fmt.Print(wShowCursor)`, then `term.Restore`.  When the script ends
with the loop still live the function has not returned, so no `defer`
has run. -/
def runWatchTrace (cfg : WatchCfg) (script : List WatchEvent) :
    WatchOutcome × List TermEvent :=
  if cfg.args.length < 2 then (.err .usage, [])
  else
    match validIntervals (cfg.args.headD ("")) with
    | none => (.err .badInterval, [])
    | some interval =>
      if cfg.resolveOk = false then (.err .resolveFailed, [])
      else if cfg.clientOk = false then (.err .noClient, [])
      else if cfg.rawOk = false then (.err .rawFailed, [])
      else
        ((watchLoop interval ⟨none, none, true⟩ script).1,
          [TermEvent.makeRaw, TermEvent.hideCursor] ++
            (watchLoop interval ⟨none, none, true⟩ script).2 ++
            (match (watchLoop interval ⟨none, none, true⟩ script).1 with
             | .done => [TermEvent.showCursor, TermEvent.restoreRaw]
             | _ => []))

/-- First index of a header name in a header list. -/
def idxOfStr (h : String) : List String → Option Nat
  | [] => none
  | x :: rest => if x = h then some 0 else (idxOfStr h rest).map (fun n => n + 1)

/-- Values of a grid's column named `h`, read off by header name: `none`
when the grid is empty or has no such header.  Used to state
header-order-independent equality of decoded grids. -/
def gridColumn (g : List (List String)) (h : String) : Option (List String) :=
  match g with
  | [] => none
  | headers :: rows =>
    match idxOfStr h headers with
    | none => none
    | some i => some (rows.map (fun row => row.getD i ("")))

/-! Helper lemmas. -/

/-- The supported-interval lookup succeeds exactly on the five fixed
interval strings. -/
theorem validIntervals_isSome_iff (s : String) :
    (validIntervals s).isSome = true ↔
      (s = "5s" ∨ s = "10s" ∨ s = "30s" ∨ s = "1m" ∨ s = "5m") := by
  unfold validIntervals
  repeat' split <;> simp_all

/-- The loop itself never produces a setup error: it either quits
normally or is still running when the script ends. -/
theorem watchLoop_outcome (interval : Nat) :
    ∀ (script : List WatchEvent) (s : WatchState),
      (watchLoop interval s script).1 = .done ∨ (watchLoop interval s script).1 = .running := by
  intro script
  induction script with
  | nil => intro s; right; rfl
  | cons e rest ih =>
    intro s
    cases h : watchStep interval s e with
    | quit => left; simp [watchLoop, h]
    | cont s2 => simpa [watchLoop, h] using ih s2

/-- C2: `runWatch` accepts an interval string iff it is one of exactly
five values (`5s`, `10s`, `30s`, `1m`, `5m`); every other string is a
fatal `badInterval` error returned with an empty terminal trace — i.e.
strictly before raw mode is acquired or the cursor is hidden — and with
a valid interval the run can never return the `badInterval` error. -/
theorem runWatch_interval_validation (cfg : WatchCfg) (script : List WatchEvent)
    (h2 : 2 ≤ cfg.args.length) :
    ((validIntervals (cfg.args.headD (""))).isSome = true ↔
      (cfg.args.headD ("") = "5s" ∨ cfg.args.headD ("") = "10s" ∨
        cfg.args.headD ("") = "30s" ∨ cfg.args.headD ("") = "1m" ∨
        cfg.args.headD ("") = "5m")) ∧
    (validIntervals (cfg.args.headD ("")) = none →
      runWatchTrace cfg script = (.err .badInterval, [])) ∧
    ((validIntervals (cfg.args.headD (""))).isSome = true →
      (runWatchTrace cfg script).1 ≠ .err .badInterval) := by
  have hlt : ¬ cfg.args.length < 2 := by omega
  refine ⟨validIntervals_isSome_iff _, ?_, ?_⟩
  · intro hnone
    unfold runWatchTrace
    rw [if_neg hlt, hnone]
  · intro hsome hbad
    unfold runWatchTrace at hbad
    rw [if_neg hlt] at hbad
    cases hv : validIntervals (cfg.args.headD ("")) with
    | none => rw [hv] at hsome; simp at hsome
    | some interval =>
      rw [hv] at hbad
      rcases watchLoop_outcome interval script ⟨none, none, true⟩ with h | h <;>
        by_cases hr : cfg.resolveOk = false <;>
          by_cases hc : cfg.clientOk = false <;>
            by_cases hw : cfg.rawOk = false <;>
              simp [hr, hc, hw, h] at hbad

/-- C2 witness: the invalid interval `7s` is rejected with no terminal
mutation, at a concrete configuration. -/
theorem runWatch_interval_validation_witness :
    runWatchTrace ⟨[("7s"), ("perps")], true, true, true⟩ [] = (.err .badInterval, []) :=
  (runWatch_interval_validation ⟨[("7s"), ("perps")], true, true, true⟩ [] (by decide)).2.1 rfl

/-- C9: a delivered input byte stops the session iff it is `q` (113),
`Q` (81) or the terminal break byte 3 — the loop then takes the
`watchExit` shutdown path — and every other byte is ignored: the state
(previous payload, last-refresh time) is unchanged and the loop keeps
running on the remaining events. -/
theorem watch_keyboard_surface (interval : Nat) (s : WatchState) (b : Nat) :
    (watchStep interval s (.key b) = .quit ↔ (b = 113 ∨ b = 81 ∨ b = 3)) ∧
    ((b = 113 ∨ b = 81 ∨ b = 3) →
      ∀ rest, watchLoop interval s (.key b :: rest) = (.done, watchExitTrace)) ∧
    (¬(b = 113 ∨ b = 81 ∨ b = 3) →
      watchStep interval s (.key b) = .cont s ∧
      ∀ rest, watchLoop interval s (.key b :: rest) = watchLoop interval s rest) := by
  by_cases hb : b = 113 ∨ b = 81 ∨ b = 3
  · refine ⟨by simp [watchStep, hb], fun _ rest => by simp [watchLoop, watchStep, hb], fun h => absurd hb h⟩
  · refine ⟨by simp [watchStep, hb], fun h => absurd h hb, fun _ => ⟨by simp [watchStep, hb], ?_⟩⟩
    intro rest
    simp [watchLoop, watchStep, hb, stepTrace]

/-- C9 witness: byte 113 (`q`) stops the session via the shutdown path
at a concrete state. -/
theorem watch_keyboard_surface_witness :
    watchLoop 5 ⟨none, none, true⟩ [.key 113] = (.done, watchExitTrace) :=
  (watch_keyboard_surface 5 ⟨none, none, true⟩ 113).2.1 (Or.inl rfl) []

/-- C1 counterexample: a refresh cycle whose fetch fails keeps the
previous payload and continues the loop, but it DOES advance the
last-refresh timestamp — `lastRefresh = time.Now()` sits outside the
error branch in `runWatch` — so the claim's "timestamp is not advanced"
conjunct is false at this concrete state and tick. -/
theorem fetch_error_cycle_counterexample :
    (watchStep 10 ⟨some (Json.arr []), some 100, false⟩
        (.tick 200 (.error ("boom")) 205)).state? =
      some ⟨some (Json.arr []), some 205, false⟩ ∧
    ((watchStep 10 ⟨some (Json.arr []), some 100, false⟩
        (.tick 200 (.error ("boom")) 205)).state?.map WatchState.lastRefresh) ≠
      some (some 100) := by
  exact ⟨rfl, by decide⟩

/-- C1 (amended): on a due refresh cycle whose fetch fails, the retained
previous payload is kept intact and the loop continues; the last-refresh
timestamp IS advanced to the post-fetch time — which is exactly what
gates the next attempt by the configured interval: a later tick before
the interval has elapsed leaves the state untouched, and a tick at or
after the interval performs the next fetch attempt. -/
theorem fetch_error_cycle (interval : Nat) (s : WatchState) (now now2 : Nat) (msg : String)
    (hdue : (s.refreshNow ||
      (s.lastRefresh.isSome && decide (interval ≤ now - s.lastRefresh.getD 0))) = true) :
    watchStep interval s (.tick now (.error msg) now2) =
      .cont ⟨s.prevData, some now2, false⟩ ∧
    (∀ t t2 (f : Except String Json), t - now2 < interval →
      watchStep interval ⟨s.prevData, some now2, false⟩ (.tick t f t2) =
        .cont ⟨s.prevData, some now2, false⟩) ∧
    (∀ t t2 (m2 : String), interval ≤ t - now2 →
      watchStep interval ⟨s.prevData, some now2, false⟩ (.tick t (.error m2) t2) =
        .cont ⟨s.prevData, some t2, false⟩) := by
  refine ⟨?_, ?_, ?_⟩
  · simp only [watchStep, hdue, if_true]
  · intro t t2 f hlt
    have hnot : ¬ (interval ≤ t - now2) := by omega
    simp [watchStep, hnot]
  · intro t t2 m2 hle
    simp [watchStep, hle]

/-- C1 witness: a concrete failing cycle (immediate first refresh) at
interval 10 lands in the amended state. -/
theorem fetch_error_cycle_witness :
    watchStep 10 ⟨none, none, true⟩ (.tick 0 (.error ("x")) 7) =
      .cont ⟨none, some 7, false⟩ :=
  (fetch_error_cycle 10 ⟨none, none, true⟩ 0 7 ("x") (by decide)).1

/-- C10: first-frame neutrality — when no previous payload exists,
decoding Go's nil byte slice yields the empty grid, the previous-value
map built from it is empty and finds no key, and the render path's
highlight decision (which requires a non-nil previous payload) returns
0 (no highlight) for every cell of any current grid. -/
theorem first_frame_neutral (ord : Nat → GoMap → List String) (isNum : List Bool)
    (headers : List String) (rows : List (List String)) (r c : Nat) (k : String) :
    watchParseJSONo ord none = [] ∧
    watchBuildValueMap (watchParseJSONo ord none) = [] ∧
    strMapGet (watchBuildValueMap (watchParseJSONo ord none)) k = none ∧
    watchCellChange isNum (Option.isSome (none : Option Json)) headers rows
      (watchBuildValueMap (watchParseJSONo ord none)) r c = 0 := by
  refine ⟨rfl, rfl, rfl, ?_⟩
  simp [watchCellChange]

/-- Every run of `runWatchTrace` either fails setup with an empty
terminal trace, or acquires raw mode and hides the cursor, runs the
loop, and appends the deferred restoration exactly when the loop
returned. -/
theorem runWatchTrace_shape (cfg : WatchCfg) (script : List WatchEvent) :
    (∃ e, runWatchTrace cfg script = (.err e, [])) ∨
    (∃ interval,
      runWatchTrace cfg script =
        ((watchLoop interval ⟨none, none, true⟩ script).1,
          [TermEvent.makeRaw, TermEvent.hideCursor] ++
            (watchLoop interval ⟨none, none, true⟩ script).2 ++
            (match (watchLoop interval ⟨none, none, true⟩ script).1 with
             | .done => [TermEvent.showCursor, TermEvent.restoreRaw]
             | _ => []))) := by
  unfold runWatchTrace
  by_cases hlen : cfg.args.length < 2
  · exact Or.inl ⟨.usage, by rw [if_pos hlen]⟩
  · rw [if_neg hlen]
    cases hv : validIntervals (cfg.args.headD ("")) with
    | none => exact Or.inl ⟨.badInterval, rfl⟩
    | some interval =>
      by_cases hr : cfg.resolveOk = false
      · exact Or.inl ⟨.resolveFailed, by simp [hr]⟩
      · by_cases hc : cfg.clientOk = false
        · exact Or.inl ⟨.noClient, by simp [hr, hc]⟩
        · by_cases hw : cfg.rawOk = false
          · exact Or.inl ⟨.rawFailed, by simp [hr, hc, hw]⟩
          · exact Or.inr ⟨interval, by simp [hr, hc, hw]⟩

/-- C8: terminal-state restoration on every exit path — a run that
returns a setup error has an empty terminal trace (errors raised before
acquisition never touch terminal state), and a run that ends (quit by
interrupt or key, which the serialized event model delivers only after
any in-flight fetch's tick completes) has a trace that starts by
acquiring raw mode and hiding the cursor and ends by showing the cursor
and restoring raw mode before `runWatch` returns. -/
theorem runWatch_terminal_restore (cfg : WatchCfg) (script : List WatchEvent) :
    (∀ e, (runWatchTrace cfg script).1 = .err e → (runWatchTrace cfg script).2 = []) ∧
    ((runWatchTrace cfg script).1 = .done →
      ∃ mid, (runWatchTrace cfg script).2 =
        [TermEvent.makeRaw, TermEvent.hideCursor] ++ mid ++
          [TermEvent.showCursor, TermEvent.restoreRaw]) := by
  rcases runWatchTrace_shape cfg script with ⟨e0, hE⟩ | ⟨interval, hM⟩
  · constructor
    · intro e _
      rw [hE]
    · intro hdone
      rw [hE] at hdone
      simp at hdone
  · constructor
    · intro e he
      rw [hM] at he
      simp at he
      rcases watchLoop_outcome interval script ⟨none, none, true⟩ with h | h <;>
        rw [h] at he <;> simp at he
    · intro hdone
      rw [hM] at hdone
      simp at hdone
      refine ⟨(watchLoop interval ⟨none, none, true⟩ script).2, ?_⟩
      rw [hM, hdone]

/-- C8 witness: a concrete run quit by an interrupt restores the
terminal, with the acquisition prefix and restoration suffix around the
loop's own output. -/
theorem runWatch_terminal_restore_witness :
    ∃ mid, (runWatchTrace ⟨[("5s"), ("perps")], true, true, true⟩ [WatchEvent.sig]).2 =
      [TermEvent.makeRaw, TermEvent.hideCursor] ++ mid ++
        [TermEvent.showCursor, TermEvent.restoreRaw] :=
  (runWatch_terminal_restore ⟨[("5s"), ("perps")], true, true, true⟩ [WatchEvent.sig]).2 (by decide)

/-- The record extraction of the decoder does not distinguish a bare
record array from the envelope object wrapping the same array under a
`data` field. -/
theorem watchRecords_envelope (es : List Json) :
    watchRecords (some (.arr es)) =
      watchRecords (some (.obj [(("data"), Json.arr es)])) := by
  have henv : watchRecords (some (Json.obj [(("data"), Json.arr es)])) = asRecordList es := rfl
  rw [henv]
  show (match asRecordList es with
        | some recs => some recs
        | none => none) = asRecordList es
  cases asRecordList es <;> rfl

/-- C4 counterexample: the decoded grid of the one-record payload whose
only field is `null` has a column with no non-empty cells; every
non-empty cell of that column (vacuously) parses as a number, yet
`watchDetectNumeric` classifies the column as NOT numeric, refuting the
claim's "if" direction for all-empty columns. -/
theorem numeric_all_empty_counterexample :
    watchParseJSONo ordDoc (some (.arr [.obj [(("a"), Json.null)]])) = [[("a")], [("")]] ∧
    ¬(((watchDetectNumeric [("a")] [[("")]]).getD 0 false = true) ↔
      (∀ s ∈ colCells 0 [[("")]], (goParseFloat s).isSome = true)) := by
  exact ⟨by decide, by decide⟩

/-- C4 (amended): a column is classified numeric iff it has at least one
non-empty cell AND every non-empty cell in it parses as a
floating-point number; a single non-parsing non-empty cell anywhere in
the column, or a column with no non-empty cells at all, makes it
non-numeric. -/
theorem numeric_classification (headers : List String) (dataRows : List (List String))
    (c : Nat) (hc : c < headers.length) :
    (watchDetectNumeric headers dataRows).getD c false = true ↔
      (colCells c dataRows ≠ [] ∧
        ∀ s ∈ colCells c dataRows, (goParseFloat s).isSome = true) := by
  unfold watchDetectNumeric
  rw [List.getD_eq_getElem?_getD, List.getElem?_map, List.getElem?_range hc]
  simp only [Option.map_some', Option.getD_some, Bool.and_eq_true, decide_eq_true_eq,
    List.filter_length_eq_length, List.length_pos, ne_eq]

/-- C4 witness: a concrete mixed column — `1` and `2.5` parse, so the
column is numeric; the second column contains `x` and is not. -/
theorem numeric_classification_witness :
    ((watchDetectNumeric [("a")] [[("1")], [("2.5")]]).getD 0 false = true ↔
      (colCells 0 [[("1")], [("2.5")]] ≠ [] ∧
        ∀ s ∈ colCells 0 [[("1")], [("2.5")]], (goParseFloat s).isSome = true)) :=
  numeric_classification [("a")] [[("1")], [("2.5")]] 0 (by decide)

/-- The value order on `GoFloat` is asymmetric. -/
theorem GoFloat.flt_asymm (a b : GoFloat) (h : GoFloat.flt a b = true) :
    GoFloat.flt b a = false := by
  unfold GoFloat.flt GoFloat.scaled at h ⊢
  rcases le_or_lt a.exponent b.exponent with h1 | h1 <;>
    rcases le_or_lt b.exponent a.exponent with h2 | h2
  · rw [if_pos h1] at h
    rw [if_pos h2]
    have e1 : b.exponent - a.exponent = 0 := by omega
    have e2 : a.exponent - b.exponent = 0 := by omega
    rw [e1] at h
    rw [e2]
    simp at h ⊢
    omega
  · rw [if_pos h1] at h
    rw [if_neg (not_le.mpr h2)]
    simp at h ⊢
    omega
  · rw [if_neg (not_le.mpr h1)] at h
    rw [if_pos h2]
    simp at h ⊢
    omega
  · omega

/-- The comparator yields `1` exactly when both raw strings parse and
the current value exceeds the previous one. -/
theorem watchCompare_eq_one (curr prev : String) :
    watchCompare curr prev = 1 ↔
      ∃ cq pq, goParseFloat curr = some cq ∧ goParseFloat prev = some pq ∧
        GoFloat.flt pq cq = true := by
  unfold watchCompare
  cases hc : goParseFloat curr <;> cases hp : goParseFloat prev <;> simp
  split_ifs <;> simp_all

/-- The comparator yields `-1` exactly when both raw strings parse and
the current value is below the previous one. -/
theorem watchCompare_eq_negOne (curr prev : String) :
    watchCompare curr prev = -1 ↔
      ∃ cq pq, goParseFloat curr = some cq ∧ goParseFloat prev = some pq ∧
        GoFloat.flt cq pq = true := by
  unfold watchCompare
  cases hc : goParseFloat curr <;> cases hp : goParseFloat prev <;> simp
  split_ifs with h1 h2 <;> simp_all
  exact GoFloat.flt_asymm _ _ h1

/-- Within the grid bounds, the highlight decision reduces to: when the
column is numeric and a previous payload exists, compare against the
looked-up previous raw string; otherwise no highlight. -/
theorem watchCellChange_eq (isNum : List Bool) (pp : Bool) (headers : List String)
    (dataRows : List (List String)) (pv : List (String × String)) (r c : Nat)
    (hc : c < headers.length) (hr : r < dataRows.length)
    (hrc : c < (dataRows.getD r []).length) :
    watchCellChange isNum pp headers dataRows pv r c =
      if isNum.getD c false && pp then
        match strMapGet pv (watchKey r (headers.getD c (""))) with
        | some p => watchCompare ((dataRows.getD r []).getD c ("")) p
        | none => 0
      else 0 := by
  unfold watchCellChange
  rw [decide_eq_true hc, decide_eq_true hr, decide_eq_true hrc]
  simp only [Bool.and_true]

/-- When the column is numeric, a previous payload exists and the prior
value is found, the highlight decision is the comparator's verdict. -/
theorem watchCellChange_found (isNum : List Bool) (pp : Bool) (headers : List String)
    (dataRows : List (List String)) (pv : List (String × String)) (r c : Nat) (p : String)
    (hc : c < headers.length) (hr : r < dataRows.length)
    (hrc : c < (dataRows.getD r []).length)
    (hn : isNum.getD c false = true) (hp : pp = true)
    (hl : strMapGet pv (watchKey r (headers.getD c (""))) = some p) :
    watchCellChange isNum pp headers dataRows pv r c =
      watchCompare ((dataRows.getD r []).getD c ("")) p := by
  rw [watchCellChange_eq _ _ _ _ _ _ _ hc hr hrc, hn, hp, hl]
  rfl

/-- With no prior value at the cell's key, the highlight decision is 0. -/
theorem watchCellChange_noPrev (isNum : List Bool) (pp : Bool) (headers : List String)
    (dataRows : List (List String)) (pv : List (String × String)) (r c : Nat)
    (hc : c < headers.length) (hr : r < dataRows.length)
    (hrc : c < (dataRows.getD r []).length)
    (hl : strMapGet pv (watchKey r (headers.getD c (""))) = none) :
    watchCellChange isNum pp headers dataRows pv r c = 0 := by
  rw [watchCellChange_eq _ _ _ _ _ _ _ hc hr hrc, hl]
  cases isNum.getD c false && pp <;> rfl

/-- With a non-numeric column or no previous payload, the highlight
decision is 0. -/
theorem watchCellChange_noCond (isNum : List Bool) (pp : Bool) (headers : List String)
    (dataRows : List (List String)) (pv : List (String × String)) (r c : Nat)
    (hc : c < headers.length) (hr : r < dataRows.length)
    (hrc : c < (dataRows.getD r []).length)
    (hnp : isNum.getD c false = false ∨ pp = false) :
    watchCellChange isNum pp headers dataRows pv r c = 0 := by
  rw [watchCellChange_eq _ _ _ _ _ _ _ hc hr hrc]
  rcases hnp with h | h <;> rw [h]
  · rfl
  · rw [Bool.and_false]
    rfl

/-- The comparator returns 0 when either raw string fails to parse. -/
theorem watchCompare_eq_zero_of_parse_fail (curr prev : String)
    (h : goParseFloat curr = none ∨ goParseFloat prev = none) :
    watchCompare curr prev = 0 := by
  unfold watchCompare
  rcases h with h | h
  · rw [h]
  · cases hcur : goParseFloat curr <;> simp [hcur, h]

/-- The comparator returns 0 when both parse and neither value is below
the other (equal values). -/
theorem watchCompare_eq_zero_of_eq (curr prev : String) (cq pq : GoFloat)
    (hcq : goParseFloat curr = some cq) (hpq : goParseFloat prev = some pq)
    (hf1 : GoFloat.flt pq cq = false) (hf2 : GoFloat.flt cq pq = false) :
    watchCompare curr prev = 0 := by
  unfold watchCompare
  rw [hcq, hpq]
  simp [hf1, hf2]

/-- C5: diff classification — for every in-bounds current cell, the
change highlight computed by the render path is `1` (increase) iff the
column is classified numeric, a previous payload exists, a previous
value is found at the cell's `(rowIndex, columnName)` key, and both raw
strings parse with previous < current; it is `-1` (decrease) iff the
same conditions hold with current < previous; when any condition fails
(non-numeric column, no previous payload, no prior value, parse
failure), or when the parsed values are equal, the cell is classified
unchanged (`0`, no highlight). -/
theorem diff_classification (headers : List String) (dataRows prevRows : List (List String))
    (prevPresent : Bool) (r c : Nat)
    (hc : c < headers.length) (hr : r < dataRows.length)
    (hrc : c < (dataRows.getD r []).length) :
    (watchCellChange (watchDetectNumeric headers dataRows) prevPresent headers dataRows
        (watchBuildValueMap prevRows) r c = 1 ↔
      ((watchDetectNumeric headers dataRows).getD c false = true ∧ prevPresent = true ∧
        ∃ q cq pq,
          strMapGet (watchBuildValueMap prevRows) (watchKey r (headers.getD c (""))) = some q ∧
          goParseFloat ((dataRows.getD r []).getD c ("")) = some cq ∧
          goParseFloat q = some pq ∧ GoFloat.flt pq cq = true)) ∧
    (watchCellChange (watchDetectNumeric headers dataRows) prevPresent headers dataRows
        (watchBuildValueMap prevRows) r c = -1 ↔
      ((watchDetectNumeric headers dataRows).getD c false = true ∧ prevPresent = true ∧
        ∃ q cq pq,
          strMapGet (watchBuildValueMap prevRows) (watchKey r (headers.getD c (""))) = some q ∧
          goParseFloat ((dataRows.getD r []).getD c ("")) = some cq ∧
          goParseFloat q = some pq ∧ GoFloat.flt cq pq = true)) ∧
    (¬((watchDetectNumeric headers dataRows).getD c false = true ∧ prevPresent = true ∧
        ∃ q, strMapGet (watchBuildValueMap prevRows) (watchKey r (headers.getD c (""))) = some q ∧
          (goParseFloat ((dataRows.getD r []).getD c (""))).isSome = true ∧
          (goParseFloat q).isSome = true) →
      watchCellChange (watchDetectNumeric headers dataRows) prevPresent headers dataRows
        (watchBuildValueMap prevRows) r c = 0) ∧
    (∀ q cq pq,
      strMapGet (watchBuildValueMap prevRows) (watchKey r (headers.getD c (""))) = some q →
      goParseFloat ((dataRows.getD r []).getD c ("")) = some cq →
      goParseFloat q = some pq → GoFloat.flt pq cq = false → GoFloat.flt cq pq = false →
      watchCellChange (watchDetectNumeric headers dataRows) prevPresent headers dataRows
        (watchBuildValueMap prevRows) r c = 0) := by
  by_cases hn : (watchDetectNumeric headers dataRows).getD c false = true
  · by_cases hp : prevPresent = true
    · cases hl : strMapGet (watchBuildValueMap prevRows) (watchKey r (headers.getD c (""))) with
      | none =>
        rw [watchCellChange_noPrev _ _ _ _ _ _ _ hc hr hrc hl]
        refine ⟨?_, ?_, fun _ => rfl, fun _ _ _ _ _ _ _ _ => rfl⟩
        · constructor
          · intro h0
            exact absurd h0 (by decide)
          · rintro ⟨-, -, q, cq, pq, hq, -⟩
            exact Option.noConfusion hq
        · constructor
          · intro h0
            exact absurd h0 (by decide)
          · rintro ⟨-, -, q, cq, pq, hq, -⟩
            exact Option.noConfusion hq
      | some p =>
        rw [watchCellChange_found _ _ _ _ _ _ _ p hc hr hrc hn hp hl]
        refine ⟨?_, ?_, ?_, ?_⟩
        · rw [watchCompare_eq_one, hn, hp]
          simp
        · rw [watchCompare_eq_negOne, hn, hp]
          simp
        · intro hneg
          cases hcq : goParseFloat ((dataRows.getD r []).getD c ("")) with
          | none => exact watchCompare_eq_zero_of_parse_fail _ _ (Or.inl hcq)
          | some cq =>
            cases hpq : goParseFloat p with
            | none => exact watchCompare_eq_zero_of_parse_fail _ _ (Or.inr hpq)
            | some pq =>
              have hcs : (goParseFloat ((dataRows.getD r []).getD c (""))).isSome = true := by
                rw [hcq]
                rfl
              have hps : (goParseFloat p).isSome = true := by
                rw [hpq]
                rfl
              exact absurd ⟨hn, hp, p, rfl, hcs, hps⟩ hneg
        · intro q cq pq hsome hcq hpq hf1 hf2
          injection hsome with hpe
          rw [← hpe] at hpq
          exact watchCompare_eq_zero_of_eq _ _ cq pq hcq hpq hf1 hf2
    · have hp2 : prevPresent = false := by
        revert hp
        cases prevPresent <;> simp
      subst hp2
      rw [watchCellChange_noCond _ _ _ _ _ _ _ hc hr hrc (Or.inr rfl)]
      refine ⟨?_, ?_, fun _ => rfl, fun _ _ _ _ _ _ _ _ => rfl⟩
      · constructor
        · intro h0
          exact absurd h0 (by decide)
        · rintro ⟨-, hfalse, -⟩
          exact absurd hfalse (by decide)
      · constructor
        · intro h0
          exact absurd h0 (by decide)
        · rintro ⟨-, hfalse, -⟩
          exact absurd hfalse (by decide)
  · have hn2 : (watchDetectNumeric headers dataRows).getD c false = false := by
      revert hn
      cases (watchDetectNumeric headers dataRows).getD c false <;> simp
    rw [watchCellChange_noCond _ _ _ _ _ _ _ hc hr hrc (Or.inl hn2)]
    refine ⟨?_, ?_, fun _ => rfl, fun _ _ _ _ _ _ _ _ => rfl⟩
    · constructor
      · intro h0
        exact absurd h0 (by decide)
      · rintro ⟨htrue, -⟩
        rw [hn2] at htrue
        exact absurd htrue (by decide)
    · constructor
      · intro h0
        exact absurd h0 (by decide)
      · rintro ⟨htrue, -⟩
        rw [hn2] at htrue
        exact absurd htrue (by decide)

/-- C5 witness: previous `100` vs current `150` in a numeric column at
the same position is classified as an increase. -/
theorem diff_classification_witness :
    watchCellChange (watchDetectNumeric [("a")] [[("150")]]) true [("a")] [[("150")]]
        (watchBuildValueMap [[("a")], [("100")]]) 0 0 = 1 :=
  ((diff_classification [("a")] [[("150")]] [[("a")], [("100")]] true 0 0
      (by decide) (by decide) (by decide)).1).mpr
    ⟨by decide, rfl, ("100"), ⟨150, 0⟩, ⟨100, 0⟩, by decide, by decide, by decide, by decide⟩

/-- The widest-column scan either keeps its accumulator or lands on an
in-range index holding the returned maximum, which bounds the
accumulator and every scanned width. -/
theorem goMaxAux_spec (ws : List Nat) : ∀ (i : Nat) (acc : Nat × Nat),
    (goMaxAux i acc ws = acc ∨
      ∃ j, j < ws.length ∧ goMaxAux i acc ws = (i + j, ws.getD j 0)) ∧
    acc.2 ≤ (goMaxAux i acc ws).2 ∧
    ∀ w ∈ ws, w ≤ (goMaxAux i acc ws).2 := by
  induction ws with
  | nil => exact fun i acc => ⟨Or.inl rfl, le_refl _, by simp⟩
  | cons w rest ih =>
    intro i acc
    have hstep : goMaxAux i acc (w :: rest) =
        goMaxAux (i + 1) (if acc.2 < w then (i, w) else acc) rest := rfl
    have hmain := ih (i + 1) (if acc.2 < w then (i, w) else acc)
    have hacc2 : acc.2 ≤ (if acc.2 < w then (i, w) else acc).2 := by
      by_cases hw : acc.2 < w <;> simp [hw]
      omega
    have hw2 : w ≤ (if acc.2 < w then (i, w) else acc).2 := by
      by_cases hw : acc.2 < w <;> simp [hw]
      omega
    refine ⟨?_, ?_, ?_⟩
    · rcases hmain.1 with h | ⟨j, hj, hjeq⟩
      · by_cases hw : acc.2 < w
        · right
          refine ⟨0, by simp, ?_⟩
          rw [hstep, h, if_pos hw]
          simp
        · left
          rw [hstep, h, if_neg hw]
      · right
        refine ⟨j + 1, by simpa using hj, ?_⟩
        rw [hstep, hjeq]
        have : i + 1 + j = i + (j + 1) := by omega
        rw [this]
        rfl
    · rw [hstep]
      exact le_trans hacc2 hmain.2.1
    · intro x hx
      rcases List.mem_cons.mp hx with hx | hx
      · subst hx
        rw [hstep]
        exact le_trans hw2 hmain.2.1
      · rw [hstep]
        exact hmain.2.2 x hx

/-- When the scan's maximum is positive it names an in-range column
holding that width. -/
theorem goMax_loc (ws : List Nat) (h : 0 < (goMax ws).2) :
    (goMax ws).1 < ws.length ∧ ws.getD (goMax ws).1 0 = (goMax ws).2 := by
  rcases (goMaxAux_spec ws 0 (0, 0)).1 with heq | ⟨j, hj, hjeq⟩
  · rw [goMax] at h
    rw [heq] at h
    simp at h
  · constructor
    · rw [goMax, hjeq]
      simpa using hj
    · rw [goMax, hjeq]
      simp

/-- Setting an in-range entry to a strictly smaller value strictly
decreases the sum. -/
theorem sum_set_lt (ws : List Nat) : ∀ (i v : Nat), i < ws.length → v < ws.getD i 0 →
    (ws.set i v).sum < ws.sum := by
  induction ws with
  | nil => intro i v hi _; simp at hi
  | cons w rest ih =>
    intro i v hi hv
    cases i with
    | zero =>
      simp only [List.getD_cons_zero] at hv
      simp [List.set, List.sum_cons]
      omega
    | succ j =>
      simp only [List.getD_cons_succ] at hv
      have := ih j v (by simpa using hi) hv
      simp [List.set, List.sum_cons]
      omega

/-- Bound on the gap-inclusive width of the non-first columns when every
column is at most the floor width. -/
theorem watchTotalRest_le (ws : List Nat) (h : ∀ w ∈ ws, w ≤ 6) :
    watchTotalRest ws ≤ 8 * ws.length := by
  induction ws with
  | nil => simp [watchTotalRest]
  | cons w rest ih =>
    have hw := h w (List.mem_cons_self w rest)
    have hr := ih (fun x hx => h x (List.mem_cons_of_mem _ hx))
    simp only [watchTotalRest, List.length_cons]
    omega

/-- Bound on the total rendered width when every column is at most the
floor width 6. -/
theorem watchTotal_le (ws : List Nat) (h : ∀ w ∈ ws, w ≤ 6) :
    watchTotal ws ≤ 6 * ws.length + 2 * (ws.length - 1) := by
  cases ws with
  | nil => simp [watchTotal]
  | cons w rest =>
    have hw := h w (List.mem_cons_self w rest)
    have hr := watchTotalRest_le rest (fun x hx => h x (List.mem_cons_of_mem _ hx))
    simp only [watchTotal, List.length_cons]
    omega

/-- The shrink loop halts within `ws.sum` iterations of budget, with the
column count preserved and the exit condition established: either the
total fits or every column is at the floor. -/
theorem truncRun_total (tw : Nat) : ∀ (fuel : Nat) (ws : List Nat), ws.sum < fuel →
    ∃ res, truncRunFuel fuel ws tw = some res ∧ res.length = ws.length ∧
      (watchTotal res ≤ tw ∨ ∀ w ∈ res, w ≤ 6) := by
  intro fuel
  induction fuel with
  | zero => intro ws h; omega
  | succ f ih =>
    intro ws hws
    by_cases h1 : watchTotal ws ≤ tw
    · exact ⟨ws, by simp [truncRunFuel, h1], rfl, Or.inl h1⟩
    · by_cases h2 : (goMax ws).2 ≤ 6
      · refine ⟨ws, by simp [truncRunFuel, h1, h2], rfl, Or.inr ?_⟩
        intro w hw
        exact le_trans ((goMaxAux_spec ws 0 (0, 0)).2.2 w hw) h2
      · have hloc := goMax_loc ws (by omega)
        have hlt : (ws.set (goMax ws).1 ((goMax ws).2 - 1)).sum < ws.sum := by
          apply sum_set_lt _ _ _ hloc.1
          rw [hloc.2]
          omega
        obtain ⟨res, hres, hlen, hprop⟩ :=
          ih (ws.set (goMax ws).1 ((goMax ws).2 - 1)) (by omega)
        refine ⟨res, ?_, ?_, hprop⟩
        · simpa [truncRunFuel, h1, h2] using hres
        · rw [hlen, List.length_set]

/-- C7: the shrink loop of `watchTruncCols` (repeatedly decrement the
currently widest column, re-selecting the widest after every decrement)
terminates — the iteration budget `ws.sum + 1` suffices; whenever the
terminal width is at least `numColumns * 6 + 2 * (numColumns - 1)`
(floor width 6), the final total width including 2-character gaps fits
within the terminal; and in general the loop stops with the total
fitting or every column at the floor, so narrower terminals still
terminate once every column reaches the floor. -/
theorem watchTruncCols_spec (ws : List Nat) (tw : Nat) :
    truncRunFuel (ws.sum + 1) ws tw = some (watchTruncCols ws tw) ∧
    (6 * ws.length + 2 * (ws.length - 1) ≤ tw →
      watchTotal (watchTruncCols ws tw) ≤ tw) ∧
    (watchTotal (watchTruncCols ws tw) ≤ tw ∨ ∀ w ∈ watchTruncCols ws tw, w ≤ 6) := by
  obtain ⟨res, hres, hlen, hprop⟩ := truncRun_total tw (ws.sum + 1) ws (by omega)
  have hval : watchTruncCols ws tw = res := by
    unfold watchTruncCols
    rw [hres]
    rfl
  rw [hval, hres]
  refine ⟨rfl, ?_, hprop⟩
  intro htw
  rcases hprop with h | h
  · exact h
  · calc watchTotal res ≤ 6 * res.length + 2 * (res.length - 1) := watchTotal_le res h
      _ = 6 * ws.length + 2 * (ws.length - 1) := by rw [hlen]
      _ ≤ tw := htw

/-- C7 witness: two columns of widths 10 and 9 on an 80-wide terminal
(which exceeds the floor bound 14) finish fitting within the terminal. -/
theorem watchTruncCols_spec_witness :
    truncRunFuel (([10, 9] : List Nat).sum + 1) [10, 9] 80 =
      some (watchTruncCols [10, 9] 80) ∧
    watchTotal (watchTruncCols [10, 9] 80) ≤ 80 :=
  ⟨(watchTruncCols_spec [10, 9] 80).1, (watchTruncCols_spec [10, 9] 80).2.1 (by decide)⟩

/-- Replacing an existing binding leaves the key list unchanged. -/
theorem goMapKeys_map_replace (m : GoMap) (k : String) (v : Json) :
    goMapKeys (m.map (fun p => if p.1 = k then (k, v) else p)) = goMapKeys m := by
  unfold goMapKeys
  rw [List.map_map]
  congr 1
  funext p
  by_cases hp : p.1 = k <;> simp [Function.comp, hp]

/-- Membership test of the Go map model agrees with key-list
membership. -/
theorem goMapHasKey_iff (m : GoMap) (k : String) :
    goMapHasKey m k = true ↔ k ∈ goMapKeys m := by
  unfold goMapHasKey goMapKeys
  simp only [List.any_eq_true, List.mem_map, decide_eq_true_eq]

/-- Go map assignment preserves uniqueness of keys. -/
theorem goMapKeys_nodup_insert (m : GoMap) (k : String) (v : Json)
    (h : (goMapKeys m).Nodup) : (goMapKeys (goMapInsert m k v)).Nodup := by
  unfold goMapInsert
  by_cases hk : goMapHasKey m k = true
  · rw [if_pos hk, goMapKeys_map_replace]
    exact h
  · rw [if_neg hk]
    have hkm : k ∉ goMapKeys m := fun hmem => hk ((goMapHasKey_iff m k).mpr hmem)
    unfold goMapKeys at h hkm ⊢
    rw [List.map_append]
    simp [List.nodup_append, h, hkm]

/-- Maps built by `toGoMap` have unique keys. -/
theorem toGoMap_keys_nodup (fields : List (String × Json)) :
    (goMapKeys (toGoMap fields)).Nodup := by
  unfold toGoMap
  suffices h : ∀ (fs : List (String × Json)) (m : GoMap), (goMapKeys m).Nodup →
      (goMapKeys (fs.foldl (fun m p => goMapInsert m p.1 p.2) m)).Nodup by
    exact h fields [] (by simp [goMapKeys])
  intro fs
  induction fs with
  | nil => exact fun m h => h
  | cons p rest ih =>
    intro m h
    exact ih _ (goMapKeys_nodup_insert m p.1 p.2 h)

/-- Every record produced by `asRecord` has unique keys. -/
theorem asRecord_keys_nodup (j : Json) (rec : GoMap) (h : asRecord j = some rec) :
    (goMapKeys rec).Nodup := by
  cases j with
  | null =>
    simp [asRecord] at h
    subst h
    simp [goMapKeys]
  | obj fs =>
    simp [asRecord] at h
    subst h
    exact toGoMap_keys_nodup fs
  | bool b => simp [asRecord] at h
  | num f => simp [asRecord] at h
  | str s => simp [asRecord] at h
  | arr es => simp [asRecord] at h

/-- Every record of a successfully unmarshalled array has unique keys. -/
theorem asRecordList_keys_nodup : ∀ (es : List Json) (recs : List GoMap),
    asRecordList es = some recs → ∀ rec ∈ recs, (goMapKeys rec).Nodup := by
  intro es
  induction es with
  | nil =>
    intro recs h rec hrec
    simp [asRecordList] at h
    subst h
    simp at hrec
  | cons j rest ih =>
    intro recs h rec hrec
    unfold asRecordList at h
    cases hj : asRecord j with
    | none =>
      rw [hj] at h
      simp at h
    | some r =>
      rw [hj] at h
      cases hrest : asRecordList rest with
      | none =>
        rw [hrest] at h
        simp at h
      | some rs =>
        rw [hrest] at h
        simp at h
        subst h
        rcases List.mem_cons.mp hrec with hh | hh
        · subst hh
          exact asRecord_keys_nodup j rec hj
        · exact ih rs hrest rec hh

/-- Every record extracted by `asRecords` has unique keys. -/
theorem asRecords_keys_nodup (j : Json) (recs : List GoMap) (h : asRecords j = some recs) :
    ∀ rec ∈ recs, (goMapKeys rec).Nodup := by
  cases j with
  | null =>
    simp [asRecords] at h
    subst h
    simp
  | arr es => exact asRecordList_keys_nodup es recs h
  | bool b => simp [asRecords] at h
  | num f => simp [asRecords] at h
  | str s => simp [asRecords] at h
  | obj fs => simp [asRecords] at h

/-- Every record extracted by `watchRecords` has unique keys. -/
theorem watchRecords_keys_nodup (d : Option Json) (recs : List GoMap)
    (h : watchRecords d = some recs) : ∀ rec ∈ recs, (goMapKeys rec).Nodup := by
  cases d with
  | none => simp [watchRecords] at h
  | some j =>
    have hw : watchRecords (some j) =
        (match asRecords j with
         | some recs => some recs
         | none => watchEnvelope j) := rfl
    rw [hw] at h
    cases hj : asRecords j with
    | some r =>
      rw [hj] at h
      simp at h
      subst h
      exact asRecords_keys_nodup j _ hj
    | none =>
      rw [hj] at h
      cases j with
      | obj fs =>
        have he : watchEnvelope (Json.obj fs) =
            (match goMapGet (toGoMap fs) ("data") with
             | some d => asRecords d
             | none => none) := rfl
        rw [he] at h
        cases hd : goMapGet (toGoMap fs) ("data") with
        | none =>
          rw [hd] at h
          simp at h
        | some dj =>
          rw [hd] at h
          exact asRecords_keys_nodup dj recs h
      | null => simp [watchEnvelope] at h
      | bool b => simp [watchEnvelope] at h
      | num f => simp [watchEnvelope] at h
      | str s => simp [watchEnvelope] at h
      | arr es => simp [watchEnvelope] at h

/-- Membership in the header accumulator after one record's keys are
added. -/
theorem mem_addHeaders : ∀ (ks acc : List String) (k : String),
    k ∈ addHeaders acc ks ↔ k ∈ acc ∨ k ∈ ks := by
  intro ks
  induction ks with
  | nil =>
    intro acc k
    simp [addHeaders]
  | cons x rest ih =>
    intro acc k
    have hstep : addHeaders acc (x :: rest) =
        addHeaders (if x ∈ acc then acc else acc ++ [x]) rest := rfl
    rw [hstep, ih]
    by_cases hx : x ∈ acc
    · rw [if_pos hx]
      constructor
      · rintro (h | h)
        · exact Or.inl h
        · exact Or.inr (List.mem_cons_of_mem _ h)
      · rintro (h | h)
        · exact Or.inl h
        · rcases List.mem_cons.mp h with rfl | h2
          · exact Or.inl hx
          · exact Or.inr h2
    · rw [if_neg hx]
      constructor
      · rintro (h | h)
        · rcases List.mem_append.mp h with h2 | h2
          · exact Or.inl h2
          · simp at h2
            subst h2
            exact Or.inr (List.mem_cons_self _ _)
        · exact Or.inr (List.mem_cons_of_mem _ h)
      · rintro (h | h)
        · exact Or.inl (List.mem_append.mpr (Or.inl h))
        · rcases List.mem_cons.mp h with rfl | h2
          · exact Or.inl (List.mem_append.mpr (Or.inr (by simp)))
          · exact Or.inr h2

/-- Adding a record's keys keeps the header accumulator duplicate-free. -/
theorem nodup_addHeaders : ∀ (ks acc : List String), acc.Nodup → (addHeaders acc ks).Nodup := by
  intro ks
  induction ks with
  | nil => exact fun acc h => h
  | cons x rest ih =>
    intro acc h
    have hstep : addHeaders acc (x :: rest) =
        addHeaders (if x ∈ acc then acc else acc ++ [x]) rest := rfl
    rw [hstep]
    apply ih
    by_cases hx : x ∈ acc
    · rwa [if_pos hx]
    · rw [if_neg hx]
      simp [List.nodup_append, h, hx]

/-- Under a valid iteration oracle, a name is collected as a header iff
it was already accumulated or some record carries it as a key. -/
theorem mem_collectHeadersAux (ord : Nat → GoMap → List String) (hv : OrdValid ord) :
    ∀ (recs : List GoMap), (∀ rec ∈ recs, (goMapKeys rec).Nodup) →
      ∀ (i : Nat) (acc : List String) (k : String),
        k ∈ collectHeadersAux ord i recs acc ↔
          k ∈ acc ∨ ∃ rec ∈ recs, k ∈ goMapKeys rec := by
  intro recs
  induction recs with
  | nil =>
    intro _ i acc k
    simp [collectHeadersAux]
  | cons r rest ih =>
    intro hnd i acc k
    have hr : (goMapKeys r).Nodup := hnd r (List.mem_cons_self _ _)
    have hord := (hv i r hr).2 k
    have hstep : collectHeadersAux ord i (r :: rest) acc =
        collectHeadersAux ord (i + 1) rest (addHeaders acc (ord i r)) := rfl
    rw [hstep, ih (fun rec hrec => hnd rec (List.mem_cons_of_mem _ hrec)) (i + 1) _ k,
      mem_addHeaders]
    constructor
    · rintro ((h | h) | h)
      · exact Or.inl h
      · exact Or.inr ⟨r, List.mem_cons_self _ _, hord.mp h⟩
      · rcases h with ⟨rec, hrec, hk⟩
        exact Or.inr ⟨rec, List.mem_cons_of_mem _ hrec, hk⟩
    · rintro (h | ⟨rec, hrec, hk⟩)
      · exact Or.inl (Or.inl h)
      · rcases List.mem_cons.mp hrec with rfl | h2
        · exact Or.inl (Or.inr (hord.mpr hk))
        · exact Or.inr ⟨rec, h2, hk⟩

/-- The collected header list is duplicate-free. -/
theorem nodup_collectHeadersAux (ord : Nat → GoMap → List String) :
    ∀ (recs : List GoMap) (i : Nat) (acc : List String), acc.Nodup →
      (collectHeadersAux ord i recs acc).Nodup := by
  intro recs
  induction recs with
  | nil => exact fun i acc h => h
  | cons r rest ih =>
    intro i acc h
    exact ih (i + 1) _ (nodup_addHeaders _ _ h)

/-- A header name is absent from a list iff its index search fails. -/
theorem idxOfStr_eq_none (h : String) : ∀ l : List String,
    idxOfStr h l = none ↔ h ∉ l := by
  intro l
  induction l with
  | nil => simp [idxOfStr]
  | cons x rest ih =>
    unfold idxOfStr
    by_cases hx : x = h
    · simp [hx]
    · simp only [if_neg hx, Option.map_eq_none', ih, List.mem_cons]
      constructor
      · intro hniff hor
        rcases hor with rfl | hmem
        · exact hx rfl
        · exact hniff hmem
      · intro hnot hmem
        exact hnot (Or.inr hmem)

/-- A successful index search lands in range on the searched name. -/
theorem idxOfStr_spec (h : String) : ∀ (l : List String) (i : Nat),
    idxOfStr h l = some i → i < l.length ∧ l.getD i ("") = h := by
  intro l
  induction l with
  | nil => intro i hi; simp [idxOfStr] at hi
  | cons x rest ih =>
    intro i hi
    unfold idxOfStr at hi
    by_cases hx : x = h
    · rw [if_pos hx] at hi
      simp at hi
      subst hi
      exact ⟨by simp, by simpa using hx⟩
    · rw [if_neg hx] at hi
      cases hj : idxOfStr h rest with
      | none =>
        rw [hj] at hi
        simp at hi
      | some j =>
        rw [hj] at hi
        simp at hi
        obtain ⟨hjl, hjget⟩ := ih j hj
        subst hi
        exact ⟨by simpa using hjl, by simpa using hjget⟩

/-- Reading a mapped list at an in-range index applies the function to
  the underlying entry. -/
theorem getD_map_of_lt (f : String → String) (l : List String) (i : Nat) (d d2 : String)
    (hi : i < l.length) : (l.map f).getD i d = f (l.getD i d2) := by
  rw [List.getD_eq_getElem?_getD, List.getD_eq_getElem?_getD, List.getElem?_map,
    List.getElem?_eq_getElem hi]
  rfl

/-- For a header present in the header list, the grid column of the
decoded grid reads off each record's cell under that header —
independently of the header order. -/
theorem gridColumn_mem (headers : List String) (recs : List GoMap) (h : String)
    (hmem : h ∈ headers) :
    gridColumn (headers :: gridRows headers recs) h =
      some (recs.map (fun rec => watchCell rec h)) := by
  cases hidx : idxOfStr h headers with
  | none => exact absurd hmem (fun _ => (idxOfStr_eq_none h headers).mp hidx hmem)
  | some i =>
    obtain ⟨hlt, hget⟩ := idxOfStr_spec h headers i hidx
    have hg : gridColumn (headers :: gridRows headers recs) h =
        some ((gridRows headers recs).map (fun row => row.getD i (""))) := by
      have hg0 : gridColumn (headers :: gridRows headers recs) h =
          (match idxOfStr h headers with
           | none => none
           | some i => some ((gridRows headers recs).map (fun row => row.getD i ("")))) := rfl
      rw [hg0, hidx]
    rw [hg]
    congr 1
    unfold gridRows
    rw [List.map_map]
    congr 1
    funext rec
    simp only [Function.comp]
    rw [getD_map_of_lt (watchCell rec) headers i ("") ("") hlt, hget]

/-- For a header absent from the header list, the grid column is
`none`. -/
theorem gridColumn_not_mem (headers : List String) (rows : List (List String)) (h : String)
    (hmem : h ∉ headers) : gridColumn (headers :: rows) h = none := by
  have hg : gridColumn (headers :: rows) h =
      (match idxOfStr h headers with
       | none => none
       | some i => some (rows.map (fun row => row.getD i ("")))) := rfl
  rw [hg, (idxOfStr_eq_none h headers).mpr hmem]

/-- Document order is a valid map-iteration order. -/
theorem ordDoc_valid : OrdValid ordDoc :=
  fun _ _ hnd => ⟨hnd, fun _ => Iff.rfl⟩

/-- Reversed order is a valid map-iteration order. -/
theorem ordRev_valid : OrdValid ordRev :=
  fun _ _ hnd =>
    ⟨List.nodup_reverse.mpr hnd, fun _ => List.mem_reverse⟩

/-- C3 counterexample: both the document-order and the reversed
map-iteration oracle are possible Go runs, yet on the identical raw
payload `[{"a":1,"b":2}]` they yield structurally different grids
(headers `a, b` versus `b, a`), refuting the two-run structural-equality
claim over `watchParseJSON`. -/
theorem decode_two_run_counterexample :
    OrdValid ordDoc ∧ OrdValid ordRev ∧
    watchParseJSONo ordDoc
        (some (.arr [.obj [(("a"), .num ⟨1, 0⟩), (("b"), .num ⟨2, 0⟩)]])) =
      [[("a"), ("b")], [("1"), ("2")]] ∧
    watchParseJSONo ordRev
        (some (.arr [.obj [(("a"), .num ⟨1, 0⟩), (("b"), .num ⟨2, 0⟩)]])) =
      [[("b"), ("a")], [("2"), ("1")]] ∧
    watchParseJSONo ordDoc
        (some (.arr [.obj [(("a"), .num ⟨1, 0⟩), (("b"), .num ⟨2, 0⟩)]])) ≠
      watchParseJSONo ordRev
        (some (.arr [.obj [(("a"), .num ⟨1, 0⟩), (("b"), .num ⟨2, 0⟩)]])) :=
  ⟨ordDoc_valid, ordRev_valid, by decide, by decide, by decide⟩

/-- C3 (amended): decoding identical raw bytes twice is deterministic
up to the header order chosen by Go's randomised map iteration — the
two grids have the same number of rows, the same header set, and for
every header name the same column of row values; with the same
iteration order the decoder is a pure function, so the grids are then
identical. -/
theorem decode_deterministic_up_to_order (d : Option Json)
    (o1 o2 : Nat → GoMap → List String) (h : String)
    (hv1 : OrdValid o1) (hv2 : OrdValid o2) :
    (watchParseJSONo o1 d).length = (watchParseJSONo o2 d).length ∧
    gridColumn (watchParseJSONo o1 d) h = gridColumn (watchParseJSONo o2 d) h ∧
    (∀ k, k ∈ (watchParseJSONo o1 d).headD [] ↔ k ∈ (watchParseJSONo o2 d).headD []) := by
  unfold watchParseJSONo
  cases hrec : watchRecords d with
  | none => exact ⟨rfl, rfl, fun _ => Iff.rfl⟩
  | some recs =>
    cases recs with
    | nil => exact ⟨rfl, rfl, fun _ => Iff.rfl⟩
    | cons r rest =>
      have hnd := watchRecords_keys_nodup d (r :: rest) hrec
      have hmemiff : ∀ k, k ∈ collectHeaders o1 (r :: rest) ↔
          k ∈ collectHeaders o2 (r :: rest) := by
        intro k
        rw [collectHeaders, collectHeaders,
          mem_collectHeadersAux o1 hv1 (r :: rest) hnd 0 [] k,
          mem_collectHeadersAux o2 hv2 (r :: rest) hnd 0 [] k]
      refine ⟨?_, ?_, ?_⟩
      · simp [gridRows]
      · by_cases hm : h ∈ collectHeaders o1 (r :: rest)
        · rw [gridColumn_mem _ _ _ hm, gridColumn_mem _ _ _ ((hmemiff h).mp hm)]
        · rw [gridColumn_not_mem _ _ _ hm,
            gridColumn_not_mem _ _ _ (fun hh => hm ((hmemiff h).mpr hh))]
      · intro k
        simpa using hmemiff k

/-- C3 witness: on the two-key payload, the document-order and reversed
runs agree on row count and on the column under header `a`, despite
their different header orders. -/
theorem decode_deterministic_up_to_order_witness :
    (watchParseJSONo ordDoc
        (some (.arr [.obj [(("a"), .num ⟨1, 0⟩), (("b"), .num ⟨2, 0⟩)]]))).length =
      (watchParseJSONo ordRev
        (some (.arr [.obj [(("a"), .num ⟨1, 0⟩), (("b"), .num ⟨2, 0⟩)]]))).length ∧
    gridColumn (watchParseJSONo ordDoc
        (some (.arr [.obj [(("a"), .num ⟨1, 0⟩), (("b"), .num ⟨2, 0⟩)]]))) ("a") =
      gridColumn (watchParseJSONo ordRev
        (some (.arr [.obj [(("a"), .num ⟨1, 0⟩), (("b"), .num ⟨2, 0⟩)]]))) ("a") :=
  ⟨(decode_deterministic_up_to_order
      (some (.arr [.obj [(("a"), .num ⟨1, 0⟩), (("b"), .num ⟨2, 0⟩)]]))
      ordDoc ordRev ("a") ordDoc_valid ordRev_valid).1,
   (decode_deterministic_up_to_order
      (some (.arr [.obj [(("a"), .num ⟨1, 0⟩), (("b"), .num ⟨2, 0⟩)]]))
      ordDoc ordRev ("a") ordDoc_valid ordRev_valid).2.1⟩

/-- Two payloads whose extracted records coincide decode, under any two
valid map-iteration oracles, to grids of the same size with the same
header set and the same column of row values under every header name. -/
theorem watchParse_agree_of_records_eq (d1 d2 : Option Json)
    (o1 o2 : Nat → GoMap → List String) (h : String)
    (hv1 : OrdValid o1) (hv2 : OrdValid o2)
    (heq : watchRecords d1 = watchRecords d2) :
    (watchParseJSONo o1 d1).length = (watchParseJSONo o2 d2).length ∧
    gridColumn (watchParseJSONo o1 d1) h = gridColumn (watchParseJSONo o2 d2) h ∧
    (∀ k, k ∈ (watchParseJSONo o1 d1).headD [] ↔ k ∈ (watchParseJSONo o2 d2).headD []) := by
  unfold watchParseJSONo
  rw [heq]
  cases hrec : watchRecords d2 with
  | none => exact ⟨rfl, rfl, fun _ => Iff.rfl⟩
  | some recs =>
    cases recs with
    | nil => exact ⟨rfl, rfl, fun _ => Iff.rfl⟩
    | cons r rest =>
      have hnd := watchRecords_keys_nodup d2 (r :: rest) hrec
      have hmemiff : ∀ k, k ∈ collectHeaders o1 (r :: rest) ↔
          k ∈ collectHeaders o2 (r :: rest) := by
        intro k
        rw [collectHeaders, collectHeaders,
          mem_collectHeadersAux o1 hv1 (r :: rest) hnd 0 [] k,
          mem_collectHeadersAux o2 hv2 (r :: rest) hnd 0 [] k]
      refine ⟨?_, ?_, ?_⟩
      · simp [gridRows]
      · by_cases hm : h ∈ collectHeaders o1 (r :: rest)
        · rw [gridColumn_mem _ _ _ hm, gridColumn_mem _ _ _ ((hmemiff h).mp hm)]
        · rw [gridColumn_not_mem _ _ _ hm,
            gridColumn_not_mem _ _ _ (fun hh => hm ((hmemiff h).mpr hh))]
      · intro k
        simpa using hmemiff k

/-- C6 counterexample: Go randomizes map-iteration order independently
per call, so the bare payload `[{"a":1,"b":2}]` and the envelope
`{"data":[{"a":1,"b":2}]}` can be decoded in the same process under
different valid orders: document order on the bare array gives headers
`a`, `b` and row `1`, `2`, while the (equally possible) reversed order
on the envelope gives headers `b`, `a` and row `2`, `1` — the two
decodes are not structurally equal and the envelope decode is not
`[["a","b"],["1","2"]]`, refuting the claim's unconditional
"decode to the same grid / both decode to headers [a,b]". -/
theorem envelope_two_call_counterexample :
    OrdValid ordDoc ∧ OrdValid ordRev ∧
    watchParseJSONo ordDoc
        (some (.arr [.obj [(("a"), .num ⟨1, 0⟩), (("b"), .num ⟨2, 0⟩)]])) =
      [[("a"), ("b")], [("1"), ("2")]] ∧
    watchParseJSONo ordRev
        (some (.obj [(("data"),
          .arr [.obj [(("a"), .num ⟨1, 0⟩), (("b"), .num ⟨2, 0⟩)]])])) =
      [[("b"), ("a")], [("2"), ("1")]] ∧
    watchParseJSONo ordDoc
        (some (.arr [.obj [(("a"), .num ⟨1, 0⟩), (("b"), .num ⟨2, 0⟩)]])) ≠
      watchParseJSONo ordRev
        (some (.obj [(("data"),
          .arr [.obj [(("a"), .num ⟨1, 0⟩), (("b"), .num ⟨2, 0⟩)]])])) :=
  ⟨ordDoc_valid, ordRev_valid, by decide, by decide, by decide⟩

/-- C6 (amended): envelope equivalence up to header order — for every
record array, the bare payload and the envelope object wrapping the
same array under a `data` field extract the same records, so a decode
of one under any valid map-iteration order and a decode of the other
under any (possibly different) valid order yield grids with the same
number of rows, the same header set, and the same row values under
every header name; two decodes observing the same iteration order are
structurally identical, and in document iteration order the bare and
enveloped one-record payload with fields `a = 1` and `b = 2` both
decode to headers `a`, `b` and the single row `1`, `2`. -/
theorem envelope_equivalence_up_to_order (es : List Json)
    (o1 o2 : Nat → GoMap → List String) (h : String)
    (hv1 : OrdValid o1) (hv2 : OrdValid o2) :
    watchParseJSONo o1 (some (.arr es)) =
      watchParseJSONo o1 (some (.obj [(("data"), .arr es)])) ∧
    (watchParseJSONo o1 (some (.arr es))).length =
      (watchParseJSONo o2 (some (.obj [(("data"), .arr es)]))).length ∧
    gridColumn (watchParseJSONo o1 (some (.arr es))) h =
      gridColumn (watchParseJSONo o2 (some (.obj [(("data"), .arr es)]))) h ∧
    (∀ k, k ∈ (watchParseJSONo o1 (some (.arr es))).headD [] ↔
      k ∈ (watchParseJSONo o2 (some (.obj [(("data"), .arr es)]))).headD []) ∧
    watchParseJSONo ordDoc
        (some (.arr [.obj [(("a"), .num ⟨1, 0⟩), (("b"), .num ⟨2, 0⟩)]])) =
      [[("a"), ("b")], [("1"), ("2")]] ∧
    watchParseJSONo ordDoc
        (some (.obj [(("data"), .arr [.obj [(("a"), .num ⟨1, 0⟩), (("b"), .num ⟨2, 0⟩)]])])) =
      [[("a"), ("b")], [("1"), ("2")]] := by
  have hagree := watchParse_agree_of_records_eq (some (.arr es))
    (some (.obj [(("data"), .arr es)])) o1 o2 h hv1 hv2 (watchRecords_envelope es)
  refine ⟨?_, hagree.1, hagree.2.1, hagree.2.2, by decide, by decide⟩
  unfold watchParseJSONo
  rw [watchRecords_envelope es]

/-- C6 witness: on the two-key payload, a document-order decode of the
bare array and a reversed-order decode of the envelope agree on row
count and on the column under header `a`, although their header orders
differ. -/
theorem envelope_equivalence_up_to_order_witness :
    (watchParseJSONo ordDoc
        (some (.arr [.obj [(("a"), .num ⟨1, 0⟩), (("b"), .num ⟨2, 0⟩)]]))).length =
      (watchParseJSONo ordRev
        (some (.obj [(("data"),
          .arr [.obj [(("a"), .num ⟨1, 0⟩), (("b"), .num ⟨2, 0⟩)]])]))).length ∧
    gridColumn (watchParseJSONo ordDoc
        (some (.arr [.obj [(("a"), .num ⟨1, 0⟩), (("b"), .num ⟨2, 0⟩)]]))) ("a") =
      gridColumn (watchParseJSONo ordRev
        (some (.obj [(("data"),
          .arr [.obj [(("a"), .num ⟨1, 0⟩), (("b"), .num ⟨2, 0⟩)]])]))) ("a") :=
  ⟨(envelope_equivalence_up_to_order [.obj [(("a"), .num ⟨1, 0⟩), (("b"), .num ⟨2, 0⟩)]]
      ordDoc ordRev ("a") ordDoc_valid ordRev_valid).2.1,
   (envelope_equivalence_up_to_order [.obj [(("a"), .num ⟨1, 0⟩), (("b"), .num ⟨2, 0⟩)]]
      ordDoc ordRev ("a") ordDoc_valid ordRev_valid).2.2.1⟩
